import Mathlib

/-!
Shallow embedding of the candidate-classification core of the `dash`
library (package `dash`): the extension blacklist, the magic sniffer
entry points (`Sniff`/`doSniff`/`sniffFatMach`), the tree scanner
(`Configure`), the verdict filter/ranker (`Verdict.Filter`) and the
permission fixer (`FixPermissions`).

Go strings are modelled as `List Char` (named `Str` below) so that all
string operations are structurally recursive and evaluate inside the
kernel.  External collaborators (the PE/ELF/script/ZIP/Love probes, the
generic identifier, the filesystem, chmod) are modelled as explicit
oracle parameters: the Go code only ever consumes their results, so a
run of the Go code corresponds to a choice of oracle functions here.
-/

namespace Dash

/-- Go strings, modelled as lists of characters. -/
abbrev Str := List Char

/-- ASCII lowercasing of a whole string; models `strings.ToLower` on the
ASCII paths this library manipulates. -/
def lowerStr (s : Str) : Str := s.map Char.toLower

/-- Substring test: does `pat` occur contiguously inside `s`?  Models
`strings.Contains` (and the unanchored part of regexp matching). -/
def hasInfixStr (pat : Str) : Str → Bool
  | [] => pat.isEmpty
  | c :: t => pat.isPrefixOf (c :: t) || hasInfixStr pat t

/-- Split a string on a separator character; models `strings.Split` for a
one-character separator (`strings.Split("", sep) = [""]`). -/
def splitChar (sep : Char) : Str → List Str
  | [] => [[]]
  | c :: rest =>
    match splitChar sep rest with
    | [] => if c = sep then [[], []] else [[c]]
    | h :: t => if c = sep then [] :: h :: t else (c :: h) :: t

/-- Final path component; models `filepath.Base` for the normalized,
slash-separated relative paths this library works with. -/
def baseName (s : Str) : Str := (splitChar '/' s).getLastD []

/-- Join path segments back with slashes. -/
def joinSlash (segs : List Str) : Str := (segs.intersperse ['/']).flatten

/-- Directory part of a path; models `filepath.Dir` for normalized
slash-separated relative paths (`Dir "conf.lua" = "."`). -/
def dirName (p : Str) : Str :=
  match (splitChar '/' p).dropLast with
  | [] => ['.']
  | segs => joinSlash segs

/-- Modelled from the spec: `pathDepth` is absent from the sources; per
§3/Glossary the `Depth` of a path is its 1-based number of slash-separated
segments. -/
def pathDepth (p : Str) : Nat := (splitChar '/' p).length

/-! ## Extension classifier (§4.A, `file_ext_blacklist.go`) -/

/-- The static extension blacklist, embedded verbatim from the
`fileExtBlacklist` map in `file_ext_blacklist.go` (the map keys; the
`struct{}` values carry no information). -/
def fileExtBlacklist : List Str :=
  [".bmp".toList, ".tga".toList, ".png".toList, ".gif".toList,
   ".jpg".toList, ".jpeg".toList,
   -- electron bundles
   ".asar".toList,
   -- audio
   ".ogg".toList, ".wav".toList, ".mp3".toList,
   -- video
   ".mp4".toList, ".mpg".toList, ".avi".toList,
   -- source files
   ".js".toList, ".py".toList, ".rb".toList, ".go".toList,
   ".c".toList, ".h".toList, ".c++".toList, ".cxx".toList, ".cpp".toList,
   -- structured data
   ".json".toList, ".xml".toList,
   -- UE4 assets
   ".pak".toList,
   -- libraries
   ".dll".toList, ".so".toList, ".dylib".toList,
   -- fonts
   ".otf".toList, ".ttf".toList, ".packedfont".toList,
   -- found in opus magnum
   ".cso".toList, ".glsl".toList, ".out".toList,
   ".roobos".toList,
   -- macOS metadata
   ".ds_store".toList,
   -- databases
   ".db".toList, ".sql".toList, ".sqlite".toList,
   -- various
   ".txt".toList, ".ini".toList, ".conf".toList, ".config".toList,
   ".cfg".toList, ".dat".toList, ".map".toList]

/-- Modelled from the spec: `getExt` is absent from the sources; per §4.A
the extension is the lowercased final dot-suffix of the path's basename,
including the dot, and empty when the basename has no dot (this is also
`strings.ToLower(filepath.Ext(path))`). -/
def getExt (p : Str) : Str :=
  let b := baseName p
  let rev := b.reverse
  let pre := rev.takeWhile (fun c => c ≠ '.')
  if pre.length = rev.length then [] else lowerStr ('.' :: pre.reverse)

mutual

/-- State A of the shared-object regex matcher: the remaining REVERSED
input must be `"os."` (i.e. end of a literal `".so"`) or a version
component (digits, then a dot) followed recursively by state A again.
Together with `soRevDigits` this decides the regex
`\.so(\.[0-9]+)*$` (case-insensitively, on the reversed lowercased
path). -/
def soRevMatch : Str → Bool
  | 'o' :: 's' :: '.' :: _ => true
  | c :: rest => c.isDigit && soRevDigits rest
  | [] => false

/-- State B of the shared-object regex matcher: at least one version
digit has been consumed; keep consuming digits, then a dot, then go back
to state A. -/
def soRevDigits : Str → Bool
  | c :: rest => if c.isDigit then soRevDigits rest else if c = '.' then soRevMatch rest else false
  | [] => false

end

/-- Modelled from the spec: `isBlacklistedExt` itself is absent from the
sources (only the `fileExtBlacklist` map and its unit test are present).
Per §4.A it looks up the lowercased final dot-suffix in the blacklist
map and, failing that, tries the shared-object regex
`\.so(\.[0-9]+)*$` case-insensitively against the path. -/
def isBlacklistedExt (p : Str) : Bool :=
  fileExtBlacklist.contains (getExt p) || soRevMatch (lowerStr p).reverse

/-! ## Data model (§3; the type declarations live outside the given
sources, so the records follow the spec's data model and the fields the
given code reads and writes) -/

/-- The closed flavor taxonomy of launch candidates. -/
inductive Flavor
  | NativeLinux
  | NativeWindows
  | NativeMacos
  | AppMacos
  | HTML
  | Love
  | Jar
  | Script
  | ScriptWindows
  | MSI
deriving DecidableEq

/-- Architecture tags are strings; `Arch386` is the 32-bit x86 tag. -/
def Arch386 : Str := "386".toList

/-- The 64-bit x86 architecture tag. -/
def ArchAmd64 : Str := "amd64".toList

/-- The slice of the PE probe's result that `Verdict.Filter` reads off a
candidate record: recognized installer type (empty when none) and the
GUI flag. -/
structure WindowsInfo where
  installerType : Str := []
  gui : Bool := false
deriving DecidableEq

/-- A launch candidate (§3). -/
structure Candidate where
  path : Str := []
  depth : Nat := 0
  size : Int := 0
  mode : Nat := 0
  flavor : Flavor
  arch : Str := []
  spell : Str := []
  windowsInfo : Option WindowsInfo := none
deriving DecidableEq

/-- A verdict: base path, total walked size, and the ordered candidate
list. -/
structure Verdict where
  basePath : Str := []
  totalSize : Int := 0
  candidates : List Candidate := []
deriving DecidableEq

/-- Parameters of `Verdict.Filter`; OS and Arch may be empty strings. -/
structure FilterParams where
  os : Str := []
  arch : Str := []

/-- What the fresh PE probe of the installer-exclusion stage returns for
one file: the elevation requirement and whether assembly info is
present. -/
structure PEProbeInfo where
  requiresElevation : Bool := false
  hasAssemblyInfo : Bool := false

/-- Oracles for the external effects of `Verdict.Filter`'s installer
stage: `probe basePath path` is the combined result of
`os.Open(filepath.Join(basePath, path))` followed by `pelican.Probe`
(`none` when either failed), and `setupLike` is the collaborator
predicate `HasSuspiciouslySetupLikeName` on a basename. -/
structure FilterEnv where
  probe : Str → Str → Option PEProbeInfo
  setupLike : Str → Bool

/-- An environment whose probe always fails and whose setup-name
heuristic never fires; used to evaluate `Filter` on concrete verdicts
whose run never consults the oracles. -/
def envTrivial : FilterEnv := ⟨fun _ _ => none, fun _ => false⟩

/-! ## Verdict filter/ranker (`Verdict.Filter`, `file_ext_blacklist.go`
lines 483-770) -/

/-- `hasOS` closure inside `Filter`: the OS filter is non-empty and
equals `os`. -/
def hasOSb (osFilter os : Str) : Bool := !osFilter.isEmpty && osFilter == os

/-- `excludesOS` closure inside `Filter`: the OS filter is non-empty and
differs from `os`. -/
def excludesOSb (osFilter os : Str) : Bool := !osFilter.isEmpty && osFilter != os

/-- `hasArch` closure inside `Filter`. -/
def hasArchb (archFilter arch : Str) : Bool := !archFilter.isEmpty && archFilter == arch

/-- The `keep` decision of `Filter`'s first loop ("exclude things we
can't run at all"): the switch over the candidate's flavor. -/
def osKeep (osFilter archFilter : Str) (c : Candidate) : Bool :=
  match c.flavor with
  | .NativeLinux =>
    !excludesOSb osFilter "linux".toList &&
      !(hasArchb archFilter "386".toList && (!c.arch.isEmpty && c.arch ≠ Arch386))
  | .NativeWindows => !excludesOSb osFilter "windows".toList
  | .NativeMacos => !excludesOSb osFilter "darwin".toList
  | .AppMacos => !excludesOSb osFilter "darwin".toList
  | _ => true

/-- The `compatibleCandidates` slice built by `Filter`'s first loop. -/
def osCompatible (osFilter archFilter : Str) (cands : List Candidate) : List Candidate :=
  cands.filter (osKeep osFilter archFilter)

/-- The `lowestDepth` computation of `Filter`: starting from 4096, scan
`v.Candidates` (the ORIGINAL candidate list, not the OS-compatible
one) keeping the smallest `Depth` seen. -/
def lowestDepthOf (cands : List Candidate) : Nat :=
  cands.foldl (fun d c => if c.depth < d then c.depth else d) 4096

/-- The minimum-depth stage's working set: the OS-compatible candidates
whose depth equals `lowestDepthOf` of the original candidate list. -/
def depthFiltered (osFilter archFilter : Str) (cands : List Candidate) : List Candidate :=
  (osCompatible osFilter archFilter cands).filter (fun c => c.depth == lowestDepthOf cands)

/-- `selectByFlavor`: keep the candidates of one flavor, in order. -/
def selectByFlavor (cands : List Candidate) (f : Flavor) : List Candidate :=
  cands.filter (fun c => c.flavor == f)

/-- `selectByArch`: keep the candidates of one architecture, in order. -/
def selectByArch (cands : List Candidate) (a : Str) : List Candidate :=
  cands.filter (fun c => c.arch == a)

/-- The predicate of the installer-exclusion stage (`false` means "is an
installer", mirroring the comments in the Go source): a candidate with a
recognized installer type is excluded outright; otherwise the file is
opened and probed, and on success it is excluded when it requires
elevation or when it lacks assembly info and has a setup-like basename.
Candidates whose open or probe failed (`probe = none`) are kept
(fail-open). -/
def nonInstallerKeep (env : FilterEnv) (basePath : Str) (c : Candidate) : Bool :=
  if (match c.windowsInfo with
      | some wi => !wi.installerType.isEmpty
      | none => false) then
    false
  else
    match env.probe basePath c.path with
    | none => true
    | some pe =>
      if pe.requiresElevation then false
      else if !pe.hasAssemblyInfo && env.setupLike (baseName c.path) then false
      else true

/-- The `nonInstallerCandidates` slice of the installer-exclusion stage:
the `NativeWindows` candidates of the working set that pass
`nonInstallerKeep`. -/
def nonInstallerSelect (env : FilterEnv) (basePath : Str) (best : List Candidate) : List Candidate :=
  (selectByFlavor best .NativeWindows).filter (nonInstallerKeep env basePath)

/-- The GUI test of the windows GUI-preference stage. -/
def guiKeep (c : Candidate) : Bool :=
  match c.windowsInfo with
  | some wi => wi.gui
  | none => false

/-- Stable insertion of `a` into an already-sorted list: `a` moves past
`b` only when `b` must come strictly before it, so equal elements keep
their relative order. -/
def stableInsert (le : α → α → Bool) (a : α) : List α → List α
  | [] => [a]
  | b :: t => if le b a && !le a b then b :: stableInsert le a t else a :: b :: t

/-- Stable sort by the total boolean preorder `le`; a stable sort's
result is unique, so this models Go's `sort.Stable`. -/
def stableSortBy (le : α → α → Bool) : List α → List α
  | [] => []
  | a :: t => stableInsert le a (stableSortBy le t)

/-- `sort.Stable(&biggestFirst{...})`: stable sort by `Size`
descending. -/
def sortBiggestFirst (cands : List Candidate) : List Candidate :=
  stableSortBy (fun a b => decide (b.size ≤ a.size)) cands

/-- A penalty either subtracts from the score or excludes outright. -/
inductive PenaltyKind
  | score
  | exclude

/-- One entry of the scoring blacklist: a semantic matcher for the
regexp, and its penalty. -/
structure BlacklistEntry where
  matchPath : Str → Bool
  kind : PenaltyKind
  delta : Int

/-- Matcher for `(?i)unins.*\.exe$` — the path (case-insensitively)
ends in `.exe` and contains `unins` before that suffix. -/
def matchUninsExe (p : Str) : Bool :=
  let l := lowerStr p
  ".exe".toList.isSuffixOf l && hasInfixStr "unins".toList (l.take (l.length - 4))

/-- Matcher for `(?i)vcredist.*\.exe$`. -/
def matchVcredistExe (p : Str) : Bool :=
  let l := lowerStr p
  ".exe".toList.isSuffixOf l && hasInfixStr "vcredist".toList (l.take (l.length - 4))

/-- Matcher for `(?i)unitycrashhandler.*\.exe$`. -/
def matchUnityCrashHandlerExe (p : Str) : Bool :=
  let l := lowerStr p
  ".exe".toList.isSuffixOf l && hasInfixStr "unitycrashhandler".toList (l.take (l.length - 4))

/-- Matcher for a case-insensitive end-anchored literal pattern such as
`(?i)kick\.bin$`. -/
def matchSuffixCI (suf : Str) (p : Str) : Bool := suf.isSuffixOf (lowerStr p)

/-- Matcher for the unanchored `(?i)nacl_helper`. -/
def matchNaclHelper (p : Str) : Bool := hasInfixStr "nacl_helper".toList (lowerStr p)

/-- Matcher for `(?i)\.(so|dylib)$`. -/
def matchSoDylib (p : Str) : Bool :=
  ".so".toList.isSuffixOf (lowerStr p) || ".dylib".toList.isSuffixOf (lowerStr p)

/-- The scoring blacklist of `Filter`, in source order: six score
penalties, then four excludes. -/
def scoringBlacklist : List BlacklistEntry :=
  [⟨matchUninsExe, .score, 50⟩,
   ⟨matchSuffixCI "kick.bin".toList, .score, 50⟩,
   ⟨matchSuffixCI ".vshost.exe".toList, .score, 50⟩,
   ⟨matchNaclHelper, .score, 20⟩,
   ⟨matchSuffixCI "nwjc.exe".toList, .score, 20⟩,
   ⟨matchSuffixCI "flixel.exe".toList, .score, 20⟩,
   ⟨matchSoDylib, .exclude, 0⟩,
   ⟨matchSuffixCI "dxwebsetup.exe".toList, .exclude, 0⟩,
   ⟨matchVcredistExe, .exclude, 0⟩,
   ⟨matchUnityCrashHandlerExe, .exclude, 0⟩]

/-- `computeScore`: start from 100 and apply every matching blacklist
entry in order (subtract the delta, or zero the score for an
exclude). -/
def computeScore (path : Str) : Int :=
  scoringBlacklist.foldl
    (fun score e =>
      if e.matchPath path then
        match e.kind with
        | .score => score - e.delta
        | .exclude => 0
      else score)
    100

/-- The final scoring step of `Filter`: score every candidate, drop the
non-positive ones, stably sort by score descending, and strip the
scores. -/
def scoreStage (best : List Candidate) : List Candidate :=
  let scored := (best.map (fun c => (c, computeScore c.path))).filter (fun sc => decide (0 < sc.2))
  (stableSortBy (fun a b => decide (b.2 ≤ a.2)) scored).map Prod.fst

/-- The parameters that stay fixed across `Filter`'s cascade: the
oracles, the verdict's base path, and the OS/arch filters. -/
structure FilterCtx where
  env : FilterEnv
  basePath : Str
  os : Str
  arch : Str

/-- "Everywhere, HTMLs lose if there's anything else good": drop the
HTML candidates when the working set also holds non-HTML ones. -/
def htmlDrop (best : List Candidate) : List Candidate :=
  if 0 < (selectByFlavor best .HTML).length ∧ (selectByFlavor best .HTML).length < best.length then
    best.filter (fun c => c.flavor != Flavor.HTML)
  else best

/-- "Everywhere, jars lose if there's anything else good". -/
def jarDrop (best : List Candidate) : List Candidate :=
  if 0 < (selectByFlavor best .Jar).length ∧ (selectByFlavor best .Jar).length < best.length then
    best.filter (fun c => c.flavor != Flavor.Jar)
  else best

/-- Tail of the cascade: the HTML last-resort drop, the JAR last-resort
drop, the biggest-first stable sort, and the scored ranking. -/
def stageFinal (best : List Candidate) : List Candidate :=
  scoreStage (sortBiggestFirst (jarDrop (htmlDrop best)))

/-- The `guiCandidates` slice of the GUI-preference stage. -/
def guiSelect (best : List Candidate) : List Candidate :=
  (selectByFlavor best .NativeWindows).filter guiKeep

/-- The update of the working set in the GUI-preference stage: when any
GUI `NativeWindows` candidates exist, keep only those. -/
def guiPrefer (best : List Candidate) : List Candidate :=
  if 0 < (guiSelect best).length then guiSelect best else best

/-- Windows GUI preference ("on windows, gui executables win"): among
`NativeWindows` candidates with the GUI bit, if any exist, keep only
those; short-circuit if the working set became a singleton. -/
def stageGui (ctx : FilterCtx) (best : List Candidate) : List Candidate :=
  if hasOSb ctx.os "windows".toList then
    if (guiPrefer best).length == 1 then guiPrefer best else stageFinal (guiPrefer best)
  else stageFinal best

/-- Windows installer exclusion ("on windows, non-installers win"): the
working set is REPLACED by the `NativeWindows` non-installers;
short-circuit if singleton. -/
def stageInstaller (ctx : FilterCtx) (best : List Candidate) : List Candidate :=
  if hasOSb ctx.os "windows".toList then
    if (nonInstallerSelect ctx.env ctx.basePath best).length == 1 then
      nonInstallerSelect ctx.env ctx.basePath best
    else stageGui ctx (nonInstallerSelect ctx.env ctx.basePath best)
  else stageGui ctx best

/-- The `linux64Candidates` slice of the 64-bit preference stage. -/
def linux64Select (best : List Candidate) : List Candidate :=
  selectByArch (selectByFlavor best .NativeLinux) ArchAmd64

/-- Linux 64-bit preference: on linux/amd64, keep the 64-bit Linux
natives when any exist; otherwise return the JAR candidates when any
exist. -/
def stageLinux64 (ctx : FilterCtx) (best : List Candidate) : List Candidate :=
  if hasOSb ctx.os "linux".toList && hasArchb ctx.arch "amd64".toList then
    if 0 < (linux64Select best).length then stageInstaller ctx (linux64Select best)
    else
      if 0 < (selectByFlavor best .Jar).length then selectByFlavor best .Jar
      else stageInstaller ctx best
  else stageInstaller ctx best

/-- "On linux, scripts win": return the single `Script` candidate when
exactly one remains. -/
def stageLinuxScript (ctx : FilterCtx) (best : List Candidate) : List Candidate :=
  if hasOSb ctx.os "linux".toList && (selectByFlavor best .Script).length == 1 then
    selectByFlavor best .Script
  else stageLinux64 ctx best

/-- "On windows, scripts win": return the single `ScriptWindows`
candidate when exactly one remains. -/
def stageWinScript (ctx : FilterCtx) (best : List Candidate) : List Candidate :=
  if hasOSb ctx.os "windows".toList && (selectByFlavor best .ScriptWindows).length == 1 then
    selectByFlavor best .ScriptWindows
  else stageLinuxScript ctx best

/-- The update of the working set in the app-bundle stage: on darwin,
when any `AppMacos` candidates are present, the working set becomes
exactly those. -/
def appPrefer (osFilter : Str) (best : List Candidate) : List Candidate :=
  if hasOSb osFilter "darwin".toList then
    if 0 < (selectByFlavor best .AppMacos).length then selectByFlavor best .AppMacos else best
  else best

/-- "On macOS, app bundles win". -/
def stageApp (ctx : FilterCtx) (best : List Candidate) : List Candidate :=
  stageWinScript ctx (appPrefer ctx.os best)

/-- "Love always wins, in the end": return the single `Love` candidate
when exactly one is in the working set. -/
def stageLove (ctx : FilterCtx) (best : List Candidate) : List Candidate :=
  if (selectByFlavor best .Love).length == 1 then selectByFlavor best .Love
  else stageApp ctx best

/-- The candidate-list transformation performed by `Verdict.Filter`:
OS/arch compatibility (short-circuit if singleton), minimum depth
(over the ORIGINAL list; short-circuit if singleton), then the
tie-breaker cascade. -/
def filterCandidates (ctx : FilterCtx) (cands : List Candidate) : List Candidate :=
  if (osCompatible ctx.os ctx.arch cands).length == 1 then osCompatible ctx.os ctx.arch cands
  else
    if (depthFiltered ctx.os ctx.arch cands).length == 1 then depthFiltered ctx.os ctx.arch cands
    else stageLove ctx (depthFiltered ctx.os ctx.arch cands)

/-- `Verdict.Filter`: returns a copy of the verdict whose candidate list
went through the narrowing cascade. -/
def Verdict.Filter (env : FilterEnv) (v : Verdict) (params : FilterParams) : Verdict :=
  { v with candidates := filterCandidates ⟨env, v.basePath, params.os, params.arch⟩ v.candidates }

/-! ## Magic sniffer (`Sniff`/`doSniff`, `file_ext_blacklist.go` lines
126-230, and `sniffFatMach`) -/

/-- A byte source is modelled by the list of bytes it can still deliver
from its start; a read that fails partway simply makes fewer bytes
available. -/
abbrev Bytes := List Nat

/-- Oracles for the format probes `doSniff` delegates to (external
collaborators per §4.C), plus the generic identifier used by
`sniffFatMach`.  Each probe receives the byte source and the size it
would see; `elfProbe` also receives the path and `loveProbe` the
containing directory. -/
structure SniffEnv where
  peProbe : Bytes → Int → Except Unit (Option Candidate)
  elfProbe : Bytes → Str → Int → Except Unit (Option Candidate)
  scriptProbe : Bytes → Int → Except Unit (Option Candidate)
  zipProbe : Bytes → Int → Except Unit (Option Candidate)
  loveProbe : Bytes → Int → Str → Except Unit (Option Candidate)
  identify : Bytes → Int → Str

/-- Modelled from the spec: `spellHas` is absent from the sources; per
§4.B the fat Mach-O rule asks whether the identifier's text contains
the given substring. -/
def spellHas (spell sub : Str) : Bool := hasInfixStr sub spell

/-- The disambiguating substring of the fat Mach-O rule. -/
def javaClassSpell : Str := "compiled Java class data,".toList

/-- `sniffFatMach`: run the generic identifier over the whole source;
when its text says compiled Java class, return nothing, otherwise a
`NativeMacos` candidate carrying the identifier's text as `Spell`. -/
def sniffFatMach (env : SniffEnv) (content : Bytes) (size : Int) : Except Unit (Option Candidate) :=
  let spell := env.identify content size
  if spellHas spell javaClassSpell then .ok none
  else .ok (some { flavor := .NativeMacos, spell := spell })

/-- The magic-number part of `doSniff`, reached after every path-based
rule has fallen through: the `.bat`/`.cmd` check, the 8-byte read (too
short means no candidate and no error: the read error is discarded),
and the magic dispatch table. -/
def doSniffMagic (env : SniffEnv) (content : Bytes) (path : Str) (size : Int) :
    Except Unit (Option Candidate) :=
  let lowerPath := lowerStr path
  if ".bat".toList.isSuffixOf lowerPath || ".cmd".toList.isSuffixOf lowerPath then
    .ok (some { flavor := .ScriptWindows })
  else if content.length < 8 then .ok none
  else
    let b0 := content.getD 0 0
    let b1 := content.getD 1 0
    let b2 := content.getD 2 0
    let b3 := content.getD 3 0
    let b4 := content.getD 4 0
    let b5 := content.getD 5 0
    let b6 := content.getD 6 0
    let b7 := content.getD 7 0
    if (b0 == 0xCE || b0 == 0xCF) && b1 == 0xFA && b2 == 0xED && b3 == 0xFE then
      .ok (some { flavor := .NativeMacos })
    else if b0 == 0xCA && b1 == 0xFE && b2 == 0xBA && b3 == 0xBE then
      sniffFatMach env content size
    else if b0 == 0x7F && b1 == 0x45 && b2 == 0x4C && b3 == 0x46 then
      env.elfProbe content path size
    else if b0 == 0x23 && b1 == 0x21 then
      env.scriptProbe content size
    else if b0 == 0xD0 && b1 == 0xCF && b2 == 0x11 && b3 == 0xE0 &&
            b4 == 0xA1 && b5 == 0xB1 && b6 == 0x1A && b7 == 0xE1 then
      .ok (some { flavor := .MSI })
    else if b0 == 0x50 && b1 == 0x4B && b2 == 0x03 && b3 == 0x04 then
      env.zipProbe content size
    else .ok none

/-- `doSniff`: the path-based decision tree (basename `index.html`,
basename `conf.lua`, `.love` suffix, `.exe` suffix with PE probe and
fall-through, then `doSniffMagic`). -/
def doSniff (env : SniffEnv) (content : Bytes) (path : Str) (size : Int) :
    Except Unit (Option Candidate) :=
  let lowerPath := lowerStr path
  let lowerBase := baseName lowerPath
  let dir := dirName path
  if lowerBase = "index.html".toList then .ok (some { flavor := .HTML, path := path })
  else if lowerBase = "conf.lua".toList then env.loveProbe content size dir
  else if ".love".toList.isSuffixOf lowerPath then .ok (some { flavor := .Love, path := path })
  else if ".exe".toList.isSuffixOf lowerPath then
    match env.peProbe content size with
    | .error e => .error e
    | .ok (some c) => .ok (some c)
    | .ok none => doSniffMagic env content path size
  else doSniffMagic env content path size

/-- `Sniff`: run `doSniff` and, on a candidate, fill `Size`, default
`Path` to the supplied name, and compute `Depth`. -/
def Sniff (env : SniffEnv) (content : Bytes) (name : Str) (size : Int) :
    Except Unit (Option Candidate) :=
  match doSniff env content name size with
  | .error e => .error e
  | .ok none => .ok none
  | .ok (some c0) =>
    let c1 := { c0 with size := size }
    let c2 := if c1.path.isEmpty then { c1 with path := name } else c1
    .ok (some { c2 with depth := pathDepth c2.path })

/-! ## Tree scanner (`Configure`, `file_ext_blacklist.go` lines
244-362) -/

/-- One entry of the walked container: relative slash-separated path,
size and mode. -/
structure FileEntry where
  path : Str := []
  size : Int := 0
  mode : Nat := 0
deriving DecidableEq

/-- The walker's output: directories and files (§4.D step 1). -/
structure Container where
  dirs : List FileEntry := []
  files : List FileEntry := []
deriving DecidableEq

/-- Oracle for `sniffPoolEntry`: resolving a file through the pool and
sniffing it (an `Except` error aborts `Configure`). -/
structure ConfigureEnv where
  sniffFile : FileEntry → Except Unit (Option Candidate)

/-- Modelled from the spec: `hasExt` is absent from the sources; §4.D
speaks of files "whose name ends in `.html`" (case-insensitively, in
line with the rest of the path handling). -/
def hasExt (p : Str) (ext : Str) : Bool := ext.isSuffixOf (lowerStr p)

/-- Modelled from the spec: `tlc.Container.IsSingleFile` is an external
collaborator; §4.D step 4 reads "the container holds exactly one
file". -/
def isSingleFile (cont : Container) : Bool := cont.files.length == 1

/-- The `.app` bundle scan of `Configure`: for every directory whose
lowercased path ends in `.app` and whose `contents/info.plist` exists in
the file list (case-insensitive), emit an `AppMacos` candidate with size
0, the directory's mode and the directory's depth. -/
def bundleCandidates (cont : Container) : List Candidate :=
  cont.dirs.filterMap (fun d =>
    let lowerPath := lowerStr d.path
    if ".app".toList.isSuffixOf lowerPath then
      let plistPath := lowerPath ++ "/contents/info.plist".toList
      if cont.files.any (fun f => lowerStr f.path = plistPath) then
        some { flavor := .AppMacos, size := 0, path := d.path, mode := d.mode,
               depth := pathDepth d.path }
      else none
    else none)

/-- The per-file sniffing loop of `Configure`: skip blacklisted
extensions, call the sniffer, abort on a sniff error, and stamp each
candidate with the file's mode. -/
def sniffAll (env : ConfigureEnv) : List FileEntry → Except Unit (List Candidate)
  | [] => .ok []
  | f :: rest =>
    if isBlacklistedExt f.path then sniffAll env rest
    else
      match env.sniffFile f with
      | .error e => .error e
      | .ok none => sniffAll env rest
      | .ok (some c) =>
        match sniffAll env rest with
        | .error e => .error e
        | .ok cs => .ok ({ c with mode := f.mode } :: cs)

/-- The single-file HTML fallback (§4.D step 4): when nothing was found
and the container holds exactly one file ending in `.html`, emit an
`HTML` candidate for it. -/
def singleFileFallback (cont : Container) (cands : List Candidate) : List Candidate :=
  if cands.isEmpty && isSingleFile cont then
    match cont.files with
    | f :: _ =>
      if hasExt f.path ".html".toList then
        cands ++ [{ size := f.size, path := f.path, mode := f.mode,
                    depth := pathDepth f.path, flavor := .HTML }]
      else cands
    | [] => cands
  else cands

/-- The top-level HTML fallback candidates (§4.D step 5): one `HTML`
candidate per depth-1 file ending in `.html`. -/
def topHtmlFallback (cont : Container) : List Candidate :=
  cont.files.filterMap (fun f =>
    if pathDepth f.path == 1 && hasExt f.path ".html".toList then
      some { size := f.size, path := f.path, mode := f.mode,
             depth := pathDepth f.path, flavor := .HTML }
    else none)

/-- Everything `Configure` gathers before the top-level HTML fallback:
`.app` bundles, sniffed files, and the single-file fallback. -/
def preFallback (env : ConfigureEnv) (cont : Container) : Except Unit (List Candidate) :=
  match sniffAll env cont.files with
  | .error e => .error e
  | .ok sniffed => .ok (singleFileFallback cont (bundleCandidates cont ++ sniffed))

/-- `Configure` (modulo the walk and pool plumbing, which are external
collaborators): assemble the candidates and fall back to the top-level
HTML scan only when none were produced; `TotalSize` sums every walked
file's size. -/
def Configure (env : ConfigureEnv) (root : Str) (cont : Container) : Except Unit Verdict :=
  match preFallback env cont with
  | .error e => .error e
  | .ok pre =>
    .ok { basePath := root,
          totalSize := cont.files.foldl (fun t f => t + f.size) 0,
          candidates := if pre.isEmpty then topHtmlFallback cont else pre }

/-! ## Permission fixer (`FixPermissions`, `file_ext_blacklist.go`
lines 371-398) -/

/-- Oracle for `os.Chmod(filepath.Join(basePath, path), 0755)`: `true`
means the chmod succeeded. -/
structure ChmodEnv where
  chmodOk : Str → Str → Bool

/-- Does the permission fixer consider this flavor at all?  The switch
covers `NativeLinux`, `NativeMacos` and `Script`. -/
def fixableFlavor (f : Flavor) : Bool :=
  match f with
  | .NativeLinux => true
  | .NativeMacos => true
  | .Script => true
  | _ => false

/-- One candidate's worth of work in `FixPermissions`: when the flavor
is fixable and the owner-execute bit is missing, record the path and
(unless dry-run) chmod, turning a chmod failure into an error. -/
def fixStep (env : ChmodEnv) (basePath : Str) (dryRun : Bool) (c : Candidate) :
    Except Unit (List Str) :=
  if fixableFlavor c.flavor && c.mode &&& 0o100 == 0 then
    if dryRun then .ok [c.path]
    else if env.chmodOk basePath c.path then .ok [c.path]
    else .error ()
  else .ok []

/-- The candidate loop of `FixPermissions`: run `fixStep` on each
candidate, propagating failures immediately; afterwards zero every
candidate's `Mode` (the Go loop does this unconditionally at the bottom
of each iteration, whatever the flavor). -/
def fixPermsList (env : ChmodEnv) (basePath : Str) (dryRun : Bool) :
    List Candidate → Except Unit (List Str × List Candidate)
  | [] => .ok ([], [])
  | c :: rest =>
    match fixStep env basePath dryRun c with
    | .error e => .error e
    | .ok head =>
      match fixPermsList env basePath dryRun rest with
      | .error e => .error e
      | .ok (fixed, cs) => .ok (head ++ fixed, { c with mode := 0 } :: cs)

/-- `FixPermissions`: run the loop over the verdict's candidates and
return the fixed paths together with the updated verdict (the Go code
mutates the candidates in place through their pointers). -/
def FixPermissions (env : ChmodEnv) (v : Verdict) (dryRun : Bool) :
    Except Unit (List Str × Verdict) :=
  match fixPermsList env v.basePath dryRun v.candidates with
  | .error e => .error e
  | .ok (fixed, cs) => .ok (fixed, { v with candidates := cs })

/-! ## Concrete fixtures used in counterexamples and witnesses -/

/-- A Linux native at depth 1; the unique holder of the minimum depth. -/
def fixLinuxD1 : Candidate := { path := "l".toList, depth := 1, flavor := .NativeLinux }

/-- A Windows native at depth 2. -/
def fixWinD2a : Candidate := { path := "w/a.exe".toList, depth := 2, flavor := .NativeWindows }

/-- Another Windows native at depth 2. -/
def fixWinD2b : Candidate := { path := "w/b.exe".toList, depth := 2, flavor := .NativeWindows }

/-- A verdict whose globally-minimal depth lives on an OS-incompatible
candidate when filtering for windows. -/
def vDepthMix : Verdict := { candidates := [fixLinuxD1, fixWinD2a, fixWinD2b] }

/-- An HTML candidate at depth 1. -/
def fixHtmlA : Candidate := { path := "x.html".toList, depth := 1, size := 2, flavor := .HTML }

/-- A second HTML candidate at depth 1. -/
def fixHtmlB : Candidate := { path := "y.html".toList, depth := 1, size := 1, flavor := .HTML }

/-- A verdict holding only (several) HTML candidates. -/
def vHtmlPair : Verdict := { candidates := [fixHtmlA, fixHtmlB] }

/-- A verdict holding a single HTML candidate. -/
def vHtmlSolo : Verdict := { candidates := [fixHtmlA] }

/-- A shebang script whose path ends in `.so` (so the scoring stage
zero-scores it). -/
def fixScriptSo : Candidate := { path := "a.so".toList, depth := 1, size := 5, flavor := .Script }

/-- A plain shebang script. -/
def fixScriptB : Candidate := { path := "b".toList, depth := 1, size := 3, flavor := .Script }

/-- A Linux native that survives alongside the script. -/
def fixLinuxC : Candidate := { path := "c".toList, depth := 1, size := 1, flavor := .NativeLinux }

/-- The idempotence counterexample verdict: the first linux run keeps
two candidates (one script), the second run then hits the
single-Linux-script short-circuit. -/
def vScripts : Verdict := { candidates := [fixScriptSo, fixScriptB, fixLinuxC] }

/-- Filter parameters for a plain linux request. -/
def paramsLinux : FilterParams := { os := "linux".toList }

/-- Filter parameters for a plain windows request. -/
def paramsWindows : FilterParams := { os := "windows".toList }

/-- A Windows installer (recognized installer type). -/
def fixWinSetup : Candidate :=
  { path := "setup.exe".toList, depth := 1, size := 9, flavor := .NativeWindows,
    windowsInfo := some { installerType := "nsis".toList } }

/-- A Windows GUI game executable. -/
def fixWinGame : Candidate :=
  { path := "game.exe".toList, depth := 1, size := 5, flavor := .NativeWindows,
    windowsInfo := some { gui := true } }

/-- A verdict with one installer and one game executable. -/
def vWinPair : Verdict := { candidates := [fixWinSetup, fixWinGame] }

/-- A sniffer environment whose probes find nothing and whose generic
identifier reports a compiled Java class. -/
def sniffEnvJava : SniffEnv :=
  ⟨fun _ _ => .ok none, fun _ _ _ => .ok none, fun _ _ => .ok none,
   fun _ _ => .ok none, fun _ _ _ => .ok none,
   fun _ _ => "compiled Java class data, version 52.0 (Java 1.8)".toList⟩

/-- A sniffer environment whose probes find nothing and whose generic
identifier reports a fat Mach-O binary. -/
def sniffEnvMach : SniffEnv :=
  ⟨fun _ _ => .ok none, fun _ _ _ => .ok none, fun _ _ => .ok none,
   fun _ _ => .ok none, fun _ _ _ => .ok none,
   fun _ _ => "Mach-O universal binary with 2 architectures".toList⟩

/-- Eight bytes starting with the fat Mach-O / Java class magic. -/
def cafeBytes : Bytes := [0xCA, 0xFE, 0xBA, 0xBE, 0x00, 0x00, 0x00, 0x02]

/-- A path matching none of the sniffing path rules. -/
def fixBinPath : Str := "game/wrapper.bin".toList

/-- A configure environment whose sniffing oracle never finds
anything. -/
def envConfigNone : ConfigureEnv := ⟨fun _ => .ok none⟩

/-- A container holding a single top-level `.html` file. -/
def contHtml : Container := { files := [{ path := "game.html".toList, size := 12, mode := 0o644 }] }

/-- A chmod oracle that always succeeds. -/
def chmodAlwaysOk : ChmodEnv := ⟨fun _ _ => true⟩

/-- A script candidate lacking the executable bit. -/
def fixScriptNoX : Candidate :=
  { path := "run.sh".toList, depth := 1, flavor := .Script, mode := 0o644 }

/-- An HTML candidate with a nonzero mode (a flavor the fixer never
chmods). -/
def fixHtmlMode : Candidate :=
  { path := "play.html".toList, depth := 1, flavor := .HTML, mode := 0o7 }

/-- A verdict for exercising the permission fixer. -/
def vFixPerm : Verdict := { candidates := [fixScriptNoX, fixHtmlMode] }

/-- `vFixPerm` after a successful permission fix: every mode zeroed. -/
def vFixPermZeroed : Verdict :=
  { vFixPerm with candidates := [{ fixScriptNoX with mode := 0 }, { fixHtmlMode with mode := 0 }] }

/-- The single-file HTML fallback candidate `Configure` emits for
`contHtml`. -/
def fixHtmlSingle : Candidate :=
  { size := 12, path := "game.html".toList, mode := 0o644, depth := 1, flavor := .HTML }

/-! ## Membership infrastructure: every cascade stage narrows the
working set -/

theorem mem_of_mem_filter {l : List Candidate} {p : Candidate → Bool} {c : Candidate}
    (h : c ∈ l.filter p) : c ∈ l := (List.mem_filter.1 h).1

theorem mem_of_selectByFlavor {l : List Candidate} {f : Flavor} {c : Candidate}
    (h : c ∈ selectByFlavor l f) : c ∈ l := (List.mem_filter.1 h).1

theorem mem_of_selectByArch {l : List Candidate} {a : Str} {c : Candidate}
    (h : c ∈ selectByArch l a) : c ∈ l := (List.mem_filter.1 h).1

theorem mem_stableInsert {le : α → α → Bool} {x a : α} {l : List α} :
    a ∈ stableInsert le x l ↔ a = x ∨ a ∈ l := by
  induction l with
  | nil => simp [stableInsert]
  | cons b t ih =>
    simp only [stableInsert]
    split
    · simp only [List.mem_cons, ih]
      tauto
    · simp only [List.mem_cons]

theorem mem_stableSortBy {le : α → α → Bool} {a : α} {l : List α} :
    a ∈ stableSortBy le l ↔ a ∈ l := by
  induction l with
  | nil => simp [stableSortBy]
  | cons b t ih => simp [stableSortBy, mem_stableInsert, ih]

theorem mem_of_sortBiggestFirst {l : List Candidate} {c : Candidate}
    (h : c ∈ sortBiggestFirst l) : c ∈ l := mem_stableSortBy.1 h

theorem mem_of_scoreStage {l : List Candidate} {c : Candidate}
    (h : c ∈ scoreStage l) : c ∈ l := by
  simp only [scoreStage] at h
  obtain ⟨⟨c0, s⟩, hmem, hfst⟩ := List.mem_map.1 h
  have h1 := (List.mem_filter.1 (mem_stableSortBy.1 hmem)).1
  obtain ⟨c1, hc1, heq⟩ := List.mem_map.1 h1
  cases heq
  cases hfst
  exact hc1

theorem mem_of_htmlDrop {best : List Candidate} {c : Candidate}
    (h : c ∈ htmlDrop best) : c ∈ best := by
  simp only [htmlDrop] at h
  split at h
  · exact mem_of_mem_filter h
  · exact h

theorem mem_of_jarDrop {best : List Candidate} {c : Candidate}
    (h : c ∈ jarDrop best) : c ∈ best := by
  simp only [jarDrop] at h
  split at h
  · exact mem_of_mem_filter h
  · exact h

theorem mem_of_stageFinal {best : List Candidate} {c : Candidate}
    (h : c ∈ stageFinal best) : c ∈ best := by
  simp only [stageFinal] at h
  exact mem_of_htmlDrop (mem_of_jarDrop (mem_of_sortBiggestFirst (mem_of_scoreStage h)))

theorem mem_of_guiPrefer {best : List Candidate} {c : Candidate}
    (h : c ∈ guiPrefer best) : c ∈ best := by
  simp only [guiPrefer] at h
  split at h
  · exact mem_of_selectByFlavor (mem_of_mem_filter h)
  · exact h

theorem mem_of_stageGui {ctx : FilterCtx} {best : List Candidate} {c : Candidate}
    (h : c ∈ stageGui ctx best) : c ∈ best := by
  simp only [stageGui] at h
  split at h
  · split at h
    · exact mem_of_guiPrefer h
    · exact mem_of_guiPrefer (mem_of_stageFinal h)
  · exact mem_of_stageFinal h

theorem mem_of_nonInstallerSelect {env : FilterEnv} {basePath : Str}
    {best : List Candidate} {c : Candidate}
    (h : c ∈ nonInstallerSelect env basePath best) : c ∈ best :=
  mem_of_selectByFlavor (mem_of_mem_filter h)

theorem mem_of_stageInstaller {ctx : FilterCtx} {best : List Candidate} {c : Candidate}
    (h : c ∈ stageInstaller ctx best) : c ∈ best := by
  simp only [stageInstaller] at h
  split at h
  · split at h
    · exact mem_of_nonInstallerSelect h
    · exact mem_of_nonInstallerSelect (mem_of_stageGui h)
  · exact mem_of_stageGui h

theorem mem_of_linux64Select {best : List Candidate} {c : Candidate}
    (h : c ∈ linux64Select best) : c ∈ best :=
  mem_of_selectByFlavor (mem_of_selectByArch h)

theorem mem_of_stageLinux64 {ctx : FilterCtx} {best : List Candidate} {c : Candidate}
    (h : c ∈ stageLinux64 ctx best) : c ∈ best := by
  simp only [stageLinux64] at h
  split at h
  · split at h
    · exact mem_of_linux64Select (mem_of_stageInstaller h)
    · split at h
      · exact mem_of_selectByFlavor h
      · exact mem_of_stageInstaller h
  · exact mem_of_stageInstaller h

theorem mem_of_stageLinuxScript {ctx : FilterCtx} {best : List Candidate} {c : Candidate}
    (h : c ∈ stageLinuxScript ctx best) : c ∈ best := by
  simp only [stageLinuxScript] at h
  split at h
  · exact mem_of_selectByFlavor h
  · exact mem_of_stageLinux64 h

theorem mem_of_stageWinScript {ctx : FilterCtx} {best : List Candidate} {c : Candidate}
    (h : c ∈ stageWinScript ctx best) : c ∈ best := by
  simp only [stageWinScript] at h
  split at h
  · exact mem_of_selectByFlavor h
  · exact mem_of_stageLinuxScript h

theorem mem_of_appPrefer {osFilter : Str} {best : List Candidate} {c : Candidate}
    (h : c ∈ appPrefer osFilter best) : c ∈ best := by
  simp only [appPrefer] at h
  split at h
  · split at h
    · exact mem_of_selectByFlavor h
    · exact h
  · exact h

theorem mem_of_stageApp {ctx : FilterCtx} {best : List Candidate} {c : Candidate}
    (h : c ∈ stageApp ctx best) : c ∈ best := by
  simp only [stageApp] at h
  exact mem_of_appPrefer (mem_of_stageWinScript h)

theorem mem_of_stageLove {ctx : FilterCtx} {best : List Candidate} {c : Candidate}
    (h : c ∈ stageLove ctx best) : c ∈ best := by
  simp only [stageLove] at h
  split at h
  · exact mem_of_selectByFlavor h
  · exact mem_of_stageApp h

/-- Everything `filterCandidates` outputs was in the OS-compatible set
of stage 1. -/
theorem mem_osCompatible_of_filterCandidates {ctx : FilterCtx} {cands : List Candidate}
    {c : Candidate} (h : c ∈ filterCandidates ctx cands) :
    c ∈ osCompatible ctx.os ctx.arch cands := by
  simp only [filterCandidates] at h
  split at h
  · exact h
  · split at h
    · exact mem_of_mem_filter h
    · exact mem_of_mem_filter (mem_of_stageLove h)

/-- Everything `filterCandidates` outputs was among the input
candidates. -/
theorem mem_of_filterCandidates {ctx : FilterCtx} {cands : List Candidate}
    {c : Candidate} (h : c ∈ filterCandidates ctx cands) : c ∈ cands :=
  mem_of_mem_filter (mem_osCompatible_of_filterCandidates h)

/-! ## The depth fold really is the minimum over the original list -/

theorem depthFold_le_init (cands : List Candidate) (init : Nat) :
    cands.foldl (fun d c => if c.depth < d then c.depth else d) init ≤ init := by
  induction cands generalizing init with
  | nil => simp
  | cons a t ih =>
    simp only [List.foldl_cons]
    split
    · exact le_trans (ih a.depth) (le_of_lt (by assumption))
    · exact ih init

theorem depthFold_le_mem {cands : List Candidate} {c : Candidate} (init : Nat)
    (h : c ∈ cands) :
    cands.foldl (fun d c => if c.depth < d then c.depth else d) init ≤ c.depth := by
  induction cands generalizing init with
  | nil => cases h
  | cons a t ih =>
    simp only [List.foldl_cons]
    rcases List.mem_cons.1 h with rfl | hmem
    · split
      · exact depthFold_le_init t c.depth
      · exact le_trans (depthFold_le_init t init) (by omega)
    · split
      · exact ih _ hmem
      · exact ih _ hmem

theorem depthFold_attained (cands : List Candidate) (init : Nat) :
    cands.foldl (fun d c => if c.depth < d then c.depth else d) init = init ∨
      ∃ c ∈ cands, cands.foldl (fun d c => if c.depth < d then c.depth else d) init = c.depth := by
  induction cands generalizing init with
  | nil => exact Or.inl rfl
  | cons a t ih =>
    simp only [List.foldl_cons]
    split
    · rcases ih a.depth with h | ⟨c, hc, heq⟩
      · exact Or.inr ⟨a, List.mem_cons_self a t, h⟩
      · exact Or.inr ⟨c, List.mem_cons_of_mem a hc, heq⟩
    · rcases ih init with h | ⟨c, hc, heq⟩
      · exact Or.inl h
      · exact Or.inr ⟨c, List.mem_cons_of_mem a hc, heq⟩

/-- `lowestDepthOf` bounds every depth in the list it scanned. -/
theorem lowestDepthOf_le {cands : List Candidate} {c : Candidate} (h : c ∈ cands) :
    lowestDepthOf cands ≤ c.depth := depthFold_le_mem 4096 h

/-- `lowestDepthOf` is either the untouched sentinel 4096 or a depth
occurring in the list it scanned. -/
theorem lowestDepthOf_attained (cands : List Candidate) :
    lowestDepthOf cands = 4096 ∨ ∃ c ∈ cands, lowestDepthOf cands = c.depth :=
  depthFold_attained cands 4096

/-- Semantic unfolding of the installer-exclusion predicate: a candidate
is kept exactly when it has no recognized installer type and, whenever
the PE probe succeeded, it neither requires elevation nor combines
missing assembly info with a setup-like basename (in particular a failed
probe keeps the candidate: fail-open). -/
theorem nonInstallerKeep_true_iff (env : FilterEnv) (basePath : Str) (c : Candidate) :
    nonInstallerKeep env basePath c = true ↔
      (∀ wi, c.windowsInfo = some wi → wi.installerType = [])
      ∧ (∀ pe, env.probe basePath c.path = some pe →
          pe.requiresElevation = false
          ∧ (pe.hasAssemblyInfo = false → env.setupLike (baseName c.path) = false)) := by
  unfold nonInstallerKeep
  have probePart : ∀ pe0 : Option PEProbeInfo, pe0 = env.probe basePath c.path →
      ((match pe0 with
        | none => true
        | some pe =>
          if pe.requiresElevation = true then false
          else if (!pe.hasAssemblyInfo && env.setupLike (baseName c.path)) = true then false
          else true) = true ↔
        (∀ pe, env.probe basePath c.path = some pe →
          pe.requiresElevation = false
          ∧ (pe.hasAssemblyInfo = false → env.setupLike (baseName c.path) = false))) := by
    intro pe0 hpe0
    cases pe0 with
    | none => simp [← hpe0]
    | some pe =>
      cases pe with
      | mk elev asm =>
        cases elev <;> cases asm <;>
          cases hs : env.setupLike (baseName c.path) <;>
            simp [← hpe0, hs]
  cases hwi : c.windowsInfo with
  | none =>
    simp only [hwi, Bool.false_eq_true, if_false]
    rw [probePart (env.probe basePath c.path) rfl]
    simp
  | some wi =>
    cases wi with
    | mk it gui =>
      cases it with
      | cons a t => simp [hwi]
      | nil =>
        simp only [hwi, List.isEmpty_nil, Bool.not_true, Bool.false_eq_true, if_false]
        rw [probePart (env.probe basePath c.path) rfl]
        simp

/-! ## Settled claims -/

/-- C1 (amended): in the minimum-depth stage the minimum `Depth` is
computed across ALL candidates of the original verdict — OS-compatible
or not — and the working set becomes exactly the OS-compatible
candidates whose `Depth` equals that global minimum; that fold really
is a lower bound, attained on the original list unless it stays at the
4096 sentinel. -/
theorem depth_stage_minimum_is_global (v : Verdict) (osF archF : Str)
    (_hreach : (osCompatible osF archF v.candidates).length ≠ 1) :
    (∀ c, c ∈ depthFiltered osF archF v.candidates ↔
      c ∈ osCompatible osF archF v.candidates ∧ c.depth = lowestDepthOf v.candidates)
    ∧ (∀ c ∈ v.candidates, lowestDepthOf v.candidates ≤ c.depth)
    ∧ (lowestDepthOf v.candidates = 4096 ∨
        ∃ c ∈ v.candidates, lowestDepthOf v.candidates = c.depth) := by
  refine ⟨fun c => ?_, fun c hc => lowestDepthOf_le hc, lowestDepthOf_attained v.candidates⟩
  simp [depthFiltered, List.mem_filter]

/-- Witness for C1's amended statement, at the concrete mixed-depth
verdict filtered for windows. -/
theorem depth_stage_minimum_is_global_witness :
    (osCompatible "windows".toList [] vDepthMix.candidates).length ≠ 1
    ∧ ((∀ c, c ∈ depthFiltered "windows".toList [] vDepthMix.candidates ↔
        c ∈ osCompatible "windows".toList [] vDepthMix.candidates
          ∧ c.depth = lowestDepthOf vDepthMix.candidates)
      ∧ (∀ c ∈ vDepthMix.candidates, lowestDepthOf vDepthMix.candidates ≤ c.depth)
      ∧ (lowestDepthOf vDepthMix.candidates = 4096 ∨
          ∃ c ∈ vDepthMix.candidates, lowestDepthOf vDepthMix.candidates = c.depth)) :=
  ⟨by decide, depth_stage_minimum_is_global vDepthMix "windows".toList [] (by decide)⟩

/-- C1 counterexample: with two OS-compatible windows natives at depth
2 and an incompatible linux native at depth 1, the minimum-depth stage
is reached with a non-empty compatible set but empties the working set
(the minimum was taken over all candidates), and the whole `Filter`
returns no candidates. -/
theorem depth_stage_empties_on_nonempty_compatible :
    (osCompatible "windows".toList [] vDepthMix.candidates).length = 2
    ∧ lowestDepthOf vDepthMix.candidates = 1
    ∧ depthFiltered "windows".toList [] vDepthMix.candidates = []
    ∧ (Verdict.Filter envTrivial vDepthMix paramsWindows).candidates = [] := by
  decide

/-- C2 (amended): on windows, the installer-exclusion stage REPLACES
the working set with exactly the `NativeWindows` candidates judged
non-installers — a `NativeWindows` candidate is kept iff it has no
recognized installer type and, whenever its PE probe succeeded, it
neither requires elevation nor lacks assembly info while having a
setup-like basename (failed probes keep it, fail-open); every candidate
of any other flavor is removed by this stage. -/
theorem installer_stage_keeps_exactly_noninstaller_windows (env : FilterEnv)
    (basePath : Str) (best : List Candidate) (c : Candidate) :
    c ∈ nonInstallerSelect env basePath best ↔
      c ∈ best ∧ c.flavor = .NativeWindows
      ∧ (∀ wi, c.windowsInfo = some wi → wi.installerType = [])
      ∧ (∀ pe, env.probe basePath c.path = some pe →
          pe.requiresElevation = false
          ∧ (pe.hasAssemblyInfo = false → env.setupLike (baseName c.path) = false)) := by
  unfold nonInstallerSelect selectByFlavor
  rw [List.mem_filter, List.mem_filter, nonInstallerKeep_true_iff]
  simp only [beq_iff_eq]
  tauto

/-- C2 counterexample: a windows `Filter` over two HTML candidates
reaches the installer stage, which wipes the working set (the claim
said non-`NativeWindows` flavors are unaffected); the whole `Filter`
returns no candidates even though both inputs were OS-compatible. -/
theorem installer_stage_drops_other_flavors :
    fixHtmlA ∈ vHtmlPair.candidates
    ∧ fixHtmlA.flavor = Flavor.HTML
    ∧ stageInstaller ⟨envTrivial, [], "windows".toList, []⟩ vHtmlPair.candidates = []
    ∧ (Verdict.Filter envTrivial vHtmlPair paramsWindows).candidates = [] := by
  decide

/-- C3: for a requested OS among linux/windows/darwin, the filtered
candidate list never contains a native flavor of another OS, honors the
386 restriction on Linux natives, and the non-native flavors (HTML,
Love, Jar, Script, ScriptWindows, MSI) always pass the OS-compatibility
stage. -/
theorem filter_os_arch_invariant (env : FilterEnv) (v : Verdict) (osF archF : Str)
    (hos : osF = "linux".toList ∨ osF = "windows".toList ∨ osF = "darwin".toList) :
    (∀ c ∈ (Verdict.Filter env v { os := osF, arch := archF }).candidates,
      (osF ≠ "linux".toList → c.flavor ≠ .NativeLinux)
      ∧ (osF ≠ "windows".toList → c.flavor ≠ .NativeWindows)
      ∧ (osF ≠ "darwin".toList → c.flavor ≠ .NativeMacos ∧ c.flavor ≠ .AppMacos)
      ∧ (archF = "386".toList → c.flavor = .NativeLinux → c.arch ≠ [] → c.arch = Arch386))
    ∧ (∀ c ∈ v.candidates,
        (c.flavor = .HTML ∨ c.flavor = .Love ∨ c.flavor = .Jar ∨ c.flavor = .Script
          ∨ c.flavor = .ScriptWindows ∨ c.flavor = .MSI) →
        c ∈ osCompatible osF archF v.candidates) := by
  constructor
  · intro c hc
    simp only [Verdict.Filter] at hc
    have hkeep : osKeep osF archF c = true :=
      (List.mem_filter.1 (mem_osCompatible_of_filterCandidates hc)).2
    refine ⟨?_, ?_, ?_, ?_⟩
    · intro hne hfl
      simp only [osKeep, hfl] at hkeep
      have hexcl : excludesOSb osF ['l', 'i', 'n', 'u', 'x'] = true := by
        rcases hos with h | h | h <;> subst h
        · exact absurd rfl hne
        · decide
        · decide
      simp [hexcl] at hkeep
    · intro hne hfl
      simp only [osKeep, hfl] at hkeep
      have hexcl : excludesOSb osF ['w', 'i', 'n', 'd', 'o', 'w', 's'] = true := by
        rcases hos with h | h | h <;> subst h
        · decide
        · exact absurd rfl hne
        · decide
      simp [hexcl] at hkeep
    · intro hne
      have hexcl : excludesOSb osF ['d', 'a', 'r', 'w', 'i', 'n'] = true := by
        rcases hos with h | h | h <;> subst h
        · decide
        · decide
        · exact absurd rfl hne
      constructor
      · intro hfl
        simp only [osKeep, hfl] at hkeep
        simp [hexcl] at hkeep
      · intro hfl
        simp only [osKeep, hfl] at hkeep
        simp [hexcl] at hkeep
    · intro ha hfl hne
      by_contra hver
      simp only [osKeep, hfl] at hkeep
      subst ha
      have h1 : c.arch.isEmpty = false := by
        cases harch : c.arch with
        | nil => exact absurd harch hne
        | cons a t => rfl
      rw [show hasArchb "386".toList "386".toList = true from by decide] at hkeep
      simp [h1, hver] at hkeep
  · intro c hc hfl
    refine List.mem_filter.2 ⟨hc, ?_⟩
    rcases hfl with h | h | h | h | h | h <;> simp [osKeep, h]

/-- Witness for C3 at a concrete single-HTML verdict filtered for
windows: the surviving candidate satisfies every OS constraint and
passes the compatibility stage. -/
theorem filter_os_arch_invariant_witness :
    ("windows".toList = "linux".toList ∨ "windows".toList = "windows".toList
      ∨ "windows".toList = "darwin".toList)
    ∧ fixHtmlA ∈ (Verdict.Filter envTrivial vHtmlSolo
        { os := "windows".toList, arch := [] }).candidates
    ∧ (("windows".toList ≠ "linux".toList → fixHtmlA.flavor ≠ Flavor.NativeLinux)
      ∧ ("windows".toList ≠ "windows".toList → fixHtmlA.flavor ≠ Flavor.NativeWindows)
      ∧ ("windows".toList ≠ "darwin".toList →
          fixHtmlA.flavor ≠ Flavor.NativeMacos ∧ fixHtmlA.flavor ≠ Flavor.AppMacos)
      ∧ (([] : Str) = "386".toList → fixHtmlA.flavor = Flavor.NativeLinux →
          fixHtmlA.arch ≠ [] → fixHtmlA.arch = Arch386))
    ∧ fixHtmlA ∈ osCompatible "windows".toList [] vHtmlSolo.candidates :=
  ⟨by decide, by decide,
   (filter_os_arch_invariant envTrivial vHtmlSolo "windows".toList [] (by decide)).1
     fixHtmlA (by decide),
   (filter_os_arch_invariant envTrivial vHtmlSolo "windows".toList [] (by decide)).2
     fixHtmlA (by decide) (Or.inl rfl)⟩

/-- C4: `Filter` is monotonic — every candidate path of the filtered
verdict is a candidate path of the original verdict. -/
theorem filter_monotonic_paths (env : FilterEnv) (v : Verdict) (params : FilterParams) :
    ∀ p, p ∈ (Verdict.Filter env v params).candidates.map (fun c => c.path) →
      p ∈ v.candidates.map (fun c => c.path) := by
  intro p hp
  obtain ⟨c, hc, rfl⟩ := List.mem_map.1 hp
  exact List.mem_map_of_mem _ (mem_of_filterCandidates hc)

/-- Witness for C4 at a concrete two-executable windows verdict. -/
theorem filter_monotonic_paths_witness :
    fixWinGame.path ∈
      (Verdict.Filter envTrivial vWinPair paramsWindows).candidates.map (fun c => c.path)
    ∧ fixWinGame.path ∈ vWinPair.candidates.map (fun c => c.path) :=
  ⟨by decide,
   filter_monotonic_paths envTrivial vWinPair paramsWindows fixWinGame.path (by decide)⟩

/-- C5 counterexample: `Filter` is NOT idempotent — on a linux verdict
with two scripts and a native, the scoring stage zero-scores the `.so`
script, and the second run short-circuits on the now-unique remaining
Linux script, returning a strictly smaller verdict. -/
theorem filter_not_idempotent :
    Verdict.Filter envTrivial (Verdict.Filter envTrivial vScripts paramsLinux) paramsLinux
      ≠ Verdict.Filter envTrivial vScripts paramsLinux := by
  decide

/-- C5 (amended): re-applying `Filter` with the same parameters to its
own output yields a verdict whose candidate paths are a subset of the
first output's — but not necessarily the same verdict. -/
theorem refilter_paths_subset (env : FilterEnv) (v : Verdict) (params : FilterParams) :
    ∀ p, p ∈ (Verdict.Filter env (Verdict.Filter env v params) params).candidates.map
        (fun c => c.path) →
      p ∈ (Verdict.Filter env v params).candidates.map (fun c => c.path) := by
  intro p hp
  obtain ⟨c, hc, rfl⟩ := List.mem_map.1 hp
  exact List.mem_map_of_mem _ (mem_of_filterCandidates hc)

/-- Witness for C5's amended statement at the non-idempotence
fixture. -/
theorem refilter_paths_subset_witness :
    fixScriptB.path ∈
      (Verdict.Filter envTrivial (Verdict.Filter envTrivial vScripts paramsLinux)
        paramsLinux).candidates.map (fun c => c.path)
    ∧ fixScriptB.path ∈
      (Verdict.Filter envTrivial vScripts paramsLinux).candidates.map (fun c => c.path) :=
  ⟨by decide,
   refilter_paths_subset envTrivial vScripts paramsLinux fixScriptB.path (by decide)⟩

/-- C6: when no path-based sniffing rule fires and the first 8 bytes
begin `CA FE BA BE`, `Sniff` returns no candidate and no error if the
generic identifier's text contains `"compiled Java class data,"`, and
otherwise a `NativeMacos` candidate whose `Spell` is exactly the
identifier's text. -/
theorem sniff_cafebabe_java_disambiguation (env : SniffEnv) (content : Bytes)
    (path : Str) (size : Int)
    (hIdx : baseName (lowerStr path) ≠ "index.html".toList)
    (hConf : baseName (lowerStr path) ≠ "conf.lua".toList)
    (hLove : ".love".toList.isSuffixOf (lowerStr path) = false)
    (hExe : ".exe".toList.isSuffixOf (lowerStr path) = false
      ∨ env.peProbe content size = .ok none)
    (hBat : ".bat".toList.isSuffixOf (lowerStr path) = false)
    (hCmd : ".cmd".toList.isSuffixOf (lowerStr path) = false)
    (hMagic : content.take 4 = [0xCA, 0xFE, 0xBA, 0xBE])
    (hLen : 8 ≤ content.length) :
    (spellHas (env.identify content size) javaClassSpell = true →
      Sniff env content path size = .ok none)
    ∧ (spellHas (env.identify content size) javaClassSpell = false →
      ∃ c, Sniff env content path size = .ok (some c)
        ∧ c.flavor = .NativeMacos ∧ c.spell = env.identify content size) := by
  have hmagicStep : doSniffMagic env content path size = sniffFatMach env content size := by
    unfold doSniffMagic
    rw [if_neg (by rw [hBat, hCmd]; simp)]
    rw [if_neg (by omega)]
    obtain ⟨rest, hrest⟩ : ∃ rest, content = 0xCA :: 0xFE :: 0xBA :: 0xBE :: rest := by
      rcases content with _ | ⟨b0, _ | ⟨b1, _ | ⟨b2, _ | ⟨b3, rest⟩⟩⟩⟩ <;>
        simp_all [List.take]
    subst hrest
    norm_num
  have hds : doSniff env content path size = sniffFatMach env content size := by
    unfold doSniff
    rw [if_neg hIdx, if_neg hConf, if_neg (by rw [hLove]; simp)]
    by_cases hsuf : ".exe".toList.isSuffixOf (lowerStr path) = true
    · have hpe : env.peProbe content size = .ok none := by
        rcases hExe with h | h
        · rw [h] at hsuf; cases hsuf
        · exact h
      rw [if_pos hsuf, hpe]
      exact hmagicStep
    · rw [if_neg hsuf]
      exact hmagicStep
  constructor
  · intro h
    simp [Sniff, hds, sniffFatMach, h]
  · intro h
    refine ⟨{ flavor := .NativeMacos, spell := env.identify content size, size := size,
              path := path, depth := pathDepth path }, ?_, rfl, rfl⟩
    simp [Sniff, hds, sniffFatMach, h]

/-- Witness for C6 at the concrete `CA FE BA BE` input under both
identifier behaviors. -/
theorem sniff_cafebabe_java_disambiguation_witness :
    spellHas (sniffEnvJava.identify cafeBytes 8) javaClassSpell = true
    ∧ Sniff sniffEnvJava cafeBytes fixBinPath 8 = .ok none
    ∧ spellHas (sniffEnvMach.identify cafeBytes 8) javaClassSpell = false
    ∧ (∃ c, Sniff sniffEnvMach cafeBytes fixBinPath 8 = .ok (some c)
        ∧ c.flavor = .NativeMacos ∧ c.spell = sniffEnvMach.identify cafeBytes 8) :=
  ⟨by decide,
   (sniff_cafebabe_java_disambiguation sniffEnvJava cafeBytes fixBinPath 8
     (by decide) (by decide) (by decide) (Or.inl (by decide)) (by decide) (by decide)
     (by decide) (by decide)).1 (by decide),
   by decide,
   (sniff_cafebabe_java_disambiguation sniffEnvMach cafeBytes fixBinPath 8
     (by decide) (by decide) (by decide) (Or.inl (by decide)) (by decide) (by decide)
     (by decide) (by decide)).2 (by decide)⟩

/-- C9: when no path-based rule fires (including a `.exe` path whose PE
probe cleanly found nothing) and fewer than 8 bytes are available —
also when the underlying read failed partway, which simply leaves fewer
bytes — `Sniff` returns no candidate and no error. -/
theorem sniff_short_input_no_error (env : SniffEnv) (content : Bytes)
    (path : Str) (size : Int)
    (hIdx : baseName (lowerStr path) ≠ "index.html".toList)
    (hConf : baseName (lowerStr path) ≠ "conf.lua".toList)
    (hLove : ".love".toList.isSuffixOf (lowerStr path) = false)
    (hExe : ".exe".toList.isSuffixOf (lowerStr path) = false
      ∨ env.peProbe content size = .ok none)
    (hBat : ".bat".toList.isSuffixOf (lowerStr path) = false)
    (hCmd : ".cmd".toList.isSuffixOf (lowerStr path) = false)
    (hLen : content.length < 8) :
    Sniff env content path size = .ok none := by
  have hmagicStep : doSniffMagic env content path size = .ok none := by
    unfold doSniffMagic
    rw [if_neg (by rw [hBat, hCmd]; simp)]
    rw [if_pos hLen]
  have hds : doSniff env content path size = .ok none := by
    unfold doSniff
    rw [if_neg hIdx, if_neg hConf, if_neg (by rw [hLove]; simp)]
    by_cases hsuf : ".exe".toList.isSuffixOf (lowerStr path) = true
    · have hpe : env.peProbe content size = .ok none := by
        rcases hExe with h | h
        · rw [h] at hsuf; cases hsuf
        · exact h
      rw [if_pos hsuf, hpe]
      exact hmagicStep
    · rw [if_neg hsuf]
      exact hmagicStep
  simp [Sniff, hds]

/-- Witness for C9 at a one-byte input. -/
theorem sniff_short_input_no_error_witness :
    ([0x23] : Bytes).length < 8
    ∧ Sniff sniffEnvMach [0x23] fixBinPath 1 = .ok none :=
  ⟨by decide,
   sniff_short_input_no_error sniffEnvMach [0x23] fixBinPath 1
     (by decide) (by decide) (by decide) (Or.inl (by decide)) (by decide) (by decide)
     (by decide)⟩

/-- C7: evaluation of the extension classifier at the unit test's nine
inputs.  Eight agree with `Test_Blacklist`; `game/maps/random.umap`
comes out `false` because its extension `.umap` is not in the
`fileExtBlacklist` map of the source (only `.map` and `.pak` are) and
the shared-object regex does not apply — yet the repository's own test
asserts `true` there. -/
theorem blacklist_concrete_cases :
    isBlacklistedExt "game/Game.exe".toList = false
    ∧ isBlacklistedExt "game/LaunchGame.bat".toList = false
    ∧ isBlacklistedExt "game/game".toList = false
    ∧ isBlacklistedExt "game/game.x86".toList = false
    ∧ isBlacklistedExt "game/game.x86_64".toList = false
    ∧ isBlacklistedExt "libs/x86_64/libSDL.so".toList = true
    ∧ isBlacklistedExt "libs/x86_64/libSDL.so.2".toList = true
    ∧ isBlacklistedExt "libs/x86_64/libSDL.so.2.0.0".toList = true
    ∧ isBlacklistedExt "game/maps/random.umap".toList = false
    ∧ getExt "game/maps/random.umap".toList = ".umap".toList
    ∧ fileExtBlacklist.contains ".umap".toList = false := by
  decide

/-- C8: the top-level HTML fallback of `Configure` fires exactly when
the bundle scan, the sniffing pass and the single-file fallback
produced nothing; when anything else survived, the verdict is exactly
those candidates and no fallback is added.  Every fallback candidate is
a depth-1 `HTML` candidate. -/
theorem configure_html_fallback_last_resort (env : ConfigureEnv) (root : Str)
    (cont : Container) (pre : List Candidate)
    (h : preFallback env cont = .ok pre) :
    ∃ w, Configure env root cont = .ok w
      ∧ (pre ≠ [] → w.candidates = pre)
      ∧ (pre = [] → w.candidates = topHtmlFallback cont)
      ∧ ∀ c ∈ topHtmlFallback cont, c.flavor = .HTML ∧ c.depth = 1 := by
  refine ⟨{ basePath := root, totalSize := cont.files.foldl (fun t f => t + f.size) 0,
            candidates := if pre.isEmpty then topHtmlFallback cont else pre },
    by simp [Configure, h], ?_, ?_, ?_⟩
  · intro hne
    cases pre with
    | nil => exact absurd rfl hne
    | cons a t => rfl
  · intro he
    subst he
    rfl
  · intro c hc
    obtain ⟨f, hf, heq⟩ := List.mem_filterMap.1 hc
    split at heq
    · rename_i hguard
      cases heq
      refine ⟨rfl, ?_⟩
      rw [Bool.and_eq_true] at hguard
      simp only [beq_iff_eq] at hguard
      exact hguard.1
    · cases heq

/-- Witness for C8 at a container holding one top-level `.html`
file. -/
theorem configure_html_fallback_last_resort_witness :
    preFallback envConfigNone contHtml = .ok [fixHtmlSingle]
    ∧ ∃ w, Configure envConfigNone "root".toList contHtml = .ok w
      ∧ (([fixHtmlSingle] : List Candidate) ≠ [] → w.candidates = [fixHtmlSingle])
      ∧ (([fixHtmlSingle] : List Candidate) = [] → w.candidates = topHtmlFallback contHtml)
      ∧ ∀ c ∈ topHtmlFallback contHtml, c.flavor = .HTML ∧ c.depth = 1 :=
  ⟨by rfl,
   configure_html_fallback_last_resort envConfigNone "root".toList contHtml
     [fixHtmlSingle] (by rfl)⟩

/-- The loop of `FixPermissions`, on success, maps every candidate to
itself with `Mode` zeroed. -/
theorem fixPermsList_zeroes (env : ChmodEnv) (basePath : Str) (dryRun : Bool) :
    ∀ (l : List Candidate) (fixed : List Str) (cs : List Candidate),
      fixPermsList env basePath dryRun l = .ok (fixed, cs) →
        cs = l.map (fun c => { c with mode := 0 }) := by
  intro l
  induction l with
  | nil =>
    intro fixed cs h
    simp only [fixPermsList, Except.ok.injEq, Prod.mk.injEq] at h
    simp [← h.2]
  | cons c rest ih =>
    intro fixed cs h
    simp only [fixPermsList] at h
    cases hstep : fixStep env basePath dryRun c with
    | error e => rw [hstep] at h; cases h
    | ok head =>
      rw [hstep] at h
      cases hrec : fixPermsList env basePath dryRun rest with
      | error e => rw [hrec] at h; cases h
      | ok pr =>
        obtain ⟨fixed2, cs2⟩ := pr
        rw [hrec] at h
        simp only [Except.ok.injEq, Prod.mk.injEq] at h
        rw [← h.2, List.map_cons, ih fixed2 cs2 hrec]

/-- C10: whenever `FixPermissions` returns without error (dry-run or
not), the updated verdict's candidates are exactly the originals with
`Mode` zeroed — so every candidate's `Mode` is 0 afterwards, whatever
its flavor. -/
theorem fix_permissions_zeroes_all_modes (env : ChmodEnv) (v : Verdict) (dryRun : Bool)
    (fixed : List Str) (w : Verdict)
    (h : FixPermissions env v dryRun = .ok (fixed, w)) :
    w.candidates = v.candidates.map (fun c => { c with mode := 0 })
    ∧ ∀ c ∈ w.candidates, c.mode = 0 := by
  unfold FixPermissions at h
  cases hl : fixPermsList env v.basePath dryRun v.candidates with
  | error e => rw [hl] at h; cases h
  | ok pr =>
    obtain ⟨fixed2, cs⟩ := pr
    rw [hl] at h
    simp only [Except.ok.injEq, Prod.mk.injEq] at h
    have hcs := fixPermsList_zeroes env v.basePath dryRun v.candidates fixed2 cs hl
    have hw : w.candidates = cs := by rw [← h.2]
    constructor
    · rw [hw, hcs]
    · intro c hc
      rw [hw, hcs] at hc
      obtain ⟨c0, _, rfl⟩ := List.mem_map.1 hc
      rfl

/-- Witness for C10: a verdict with an unfixed script and a nonzero-mode
HTML candidate; after a non-dry run everything is zeroed. -/
theorem fix_permissions_zeroes_all_modes_witness :
    FixPermissions chmodAlwaysOk vFixPerm false = .ok ([fixScriptNoX.path], vFixPermZeroed)
    ∧ (vFixPermZeroed.candidates = vFixPerm.candidates.map (fun c => { c with mode := 0 })
      ∧ ∀ c ∈ vFixPermZeroed.candidates, c.mode = 0) :=
  ⟨by rfl,
   fix_permissions_zeroes_all_modes chmodAlwaysOk vFixPerm false
     [fixScriptNoX.path] vFixPermZeroed (by rfl)⟩

end Dash



